import Mathlib

/-!
Verification of the book-catalog library in `src/models.py`.

The four Python classes `Book`, `BookCollection`, `IndexDict` and `Library`
are embedded shallowly.  Python dicts are modelled as insertion-ordered
association lists whose keys stay unique along every reachable state:
assignment replaces the value at an existing key in place, otherwise it
appends at the end; deletion drops the entry; lookup walks from the front.
Python lists of books are Lean lists; mutation becomes explicit state
passing.  `Book.__eq__` compares isbn only, so every place where the source
relies on `==` between books is written out as isbn equality.
-/

/-- Class `Book` of `src/models.py`: title, author, year, genre, isbn. -/
structure Book where
  title : String
  author : String
  year : Int
  genre : String
  isbn : String
deriving DecidableEq

/-- Python runtime values that can reach the dynamically typed entries
(`BookCollection.add`, `BookCollection.__contains__`): a `Book`, a `str`,
an `int`, or `None`. -/
inductive PyVal where
  | book : Book → PyVal
  | str : String → PyVal
  | int : Int → PyVal
  | none : PyVal
deriving DecidableEq

/-- Python `isinstance(v, Book)`. -/
def PyVal.isBook : PyVal → Bool
  | .book _ => true
  | _ => false

/-- Python `isinstance(v, str)`. -/
def PyVal.isStr : PyVal → Bool
  | .str _ => true
  | _ => false

/-- The exceptions the source can raise. -/
inductive PyError where
  | typeError
  | indexError
deriving DecidableEq

/-- Python dict assignment `d[k] = v` on an insertion-ordered dict modelled
as an association list: replace the value at the existing key in place,
otherwise append the new entry at the end. -/
def alSet {κ α : Type} [DecidableEq κ] : List (κ × α) → κ → α → List (κ × α)
  | [], k, v => [(k, v)]
  | p :: rest, k, v => if p.1 = k then (k, v) :: rest else p :: alSet rest k v

/-- Python dict lookup `d.get(k)`. -/
def alGet {κ α : Type} [DecidableEq κ] : List (κ × α) → κ → Option α
  | [], _ => none
  | p :: rest, k => if p.1 = k then some p.2 else alGet rest k

/-- Python dict deletion `del d[k]` (drops the entry holding `k`). -/
def alDel {κ α : Type} [DecidableEq κ] : List (κ × α) → κ → List (κ × α)
  | [], _ => []
  | p :: rest, k => if p.1 = k then rest else p :: alDel rest k

/-- Python membership `k in d`. -/
def alContains {κ α : Type} [DecidableEq κ] (d : List (κ × α)) (k : κ) : Bool :=
  (alGet d k).isSome

/-- Class `BookCollection`: a thin wrapper around the list `self._books`. -/
abbrev BookCollection := List Book

namespace BookCollection

/-- Source `BookCollection.add`: raises `TypeError` on a non-Book value, before
the append; on a Book it appends at the end. -/
def addVal (books : BookCollection) (v : PyVal) : Except PyError BookCollection :=
  match v with
  | .book b => .ok (books ++ [b])
  | _ => .error .typeError

/-- Source `BookCollection.remove`: scan from the front, pop the first book whose
isbn matches, report whether one was found. -/
def remove (books : BookCollection) (isbn : String) : Bool × BookCollection :=
  match books with
  | [] => (false, [])
  | b :: rest =>
      if b.isbn = isbn then (true, rest)
      else
        let r := remove rest isbn
        (r.1, b :: r.2)

/-- Source `BookCollection.remove_at_index`: pop at a 0-based position when
`0 <= index < len`, else return `None` and leave the list alone. -/
def remove_at_index (books : BookCollection) (index : Int) :
    Option Book × BookCollection :=
  if 0 ≤ index ∧ index < (books.length : Int) then
    (books[index.toNat]?, books.eraseIdx index.toNat)
  else (none, books)

/-- Source `BookCollection.__contains__`: a Book is looked up through
`Book.__eq__` (isbn equality), a string is compared against isbns, and
anything else yields `False`. -/
def containsVal (books : BookCollection) (v : PyVal) : Bool :=
  match v with
  | .book b => books.any (fun x => x.isbn == b.isbn)
  | .str s => books.any (fun x => x.isbn == s)
  | _ => false

/-- Source `BookCollection.__getitem__` with an integer key: CPython list
indexing — a negative index has the length added once, then the result
must lie in `[0, len)` or `IndexError` is raised. -/
def getInt (books : BookCollection) (i : Int) : Except PyError Book :=
  let j := if i < 0 then i + (books.length : Int) else i
  if 0 ≤ j ∧ j < (books.length : Int) then
    match books[j.toNat]? with
    | some b => .ok b
    | Option.none => .error .indexError
  else .error .indexError

/-- CPython slice-bound normalisation for step 1: add the length to a
negative bound, then clamp into `[0, len]`. -/
def sliceClamp (n : Nat) (i : Int) : Nat :=
  let j := if i < 0 then i + (n : Int) else i
  if j < 0 then 0 else min j.toNat n

/-- Source `BookCollection.__getitem__` with a slice `books[start:stop]`
(step 1): both bounds are clamped, missing bounds default to the ends,
and the elements between them are returned in order.  Never raises. -/
def getSlice (books : BookCollection) (start stop : Option Int) : BookCollection :=
  let n := books.length
  let s := match start with
    | Option.none => 0
    | some i => sliceClamp n i
  let e := match stop with
    | Option.none => n
    | some i => sliceClamp n i
  (books.take e).drop s

end BookCollection

/-- Class `IndexDict`: the three lookup tables `_by_isbn`, `_by_author`,
`_by_year`. -/
structure IndexDict where
  by_isbn : List (String × Book)
  by_author : List (String × List Book)
  by_year : List (Int × List Book)
deriving DecidableEq

namespace IndexDict

/-- Source `IndexDict.__init__`. -/
def init : IndexDict := ⟨[], [], []⟩

/-- Source `IndexDict.add_book`: overwrite `_by_isbn[isbn]`, append to the author
bucket (created empty when absent), append to the year bucket. -/
def add_book (d : IndexDict) (b : Book) : IndexDict :=
  let isbn' := alSet d.by_isbn b.isbn b
  let abucket := (alGet d.by_author b.author).getD []
  let author' := alSet d.by_author b.author (abucket ++ [b])
  let ybucket := (alGet d.by_year b.year).getD []
  let year' := alSet d.by_year b.year (ybucket ++ [b])
  ⟨isbn', author', year'⟩

/-- Source `list.remove(book)` inside a bucket: drop the first element equal to
`book` under `Book.__eq__`, i.e. the first with the same isbn. -/
def bucketErase (bucket : List Book) (b : Book) : List Book :=
  bucket.eraseP (fun x => x.isbn == b.isbn)

/-- Source `IndexDict.remove_book`: delete the isbn entry when present (that
alone feeds the returned flag); in the author and year buckets remove the
first book equal by isbn and delete the bucket once empty. -/
def remove_book (d : IndexDict) (b : Book) : Bool × IndexDict :=
  let removed := alContains d.by_isbn b.isbn
  let isbn' := if removed then alDel d.by_isbn b.isbn else d.by_isbn
  let author' :=
    match alGet d.by_author b.author with
    | some bucket =>
        if bucket.any (fun x => x.isbn == b.isbn) then
          let bucket' := bucketErase bucket b
          if bucket'.isEmpty then alDel d.by_author b.author
          else alSet d.by_author b.author bucket'
        else d.by_author
    | Option.none => d.by_author
  let year' :=
    match alGet d.by_year b.year with
    | some bucket =>
        if bucket.any (fun x => x.isbn == b.isbn) then
          let bucket' := bucketErase bucket b
          if bucket'.isEmpty then alDel d.by_year b.year
          else alSet d.by_year b.year bucket'
        else d.by_year
    | Option.none => d.by_year
  (removed, ⟨isbn', author', year'⟩)

/-- Source `IndexDict.get_by_isbn`. -/
def get_by_isbn (d : IndexDict) (isbn : String) : Option Book :=
  alGet d.by_isbn isbn

/-- Source `IndexDict.get_by_author` (empty list when absent). -/
def get_by_author (d : IndexDict) (author : String) : List Book :=
  (alGet d.by_author author).getD []

/-- Source `IndexDict.get_by_year` (empty list when absent). -/
def get_by_year (d : IndexDict) (year : Int) : List Book :=
  (alGet d.by_year year).getD []

/-- Source `IndexDict.__len__`: the number of unique isbns. -/
def len (d : IndexDict) : Nat := d.by_isbn.length

end IndexDict

/-- Class `Library`: the collection plus the indexes. -/
structure Library where
  name : String
  books : BookCollection
  indexes : IndexDict
deriving DecidableEq

namespace Library

/-- Source `Library.__init__`. -/
def init (name : String) : Library := ⟨name, [], IndexDict.init⟩

/-- Source `Library.add_book` once the `isinstance` check of
`BookCollection.add` has passed: append to the collection, then index. -/
def add_book (lib : Library) (b : Book) : Library :=
  { lib with books := lib.books ++ [b], indexes := lib.indexes.add_book b }

/-- Source `Library.add_book` on an arbitrary runtime value: the only failure is
the `TypeError` of `BookCollection.add`, raised before any mutation, so an
error propagates with the library untouched. -/
def add_val (lib : Library) (v : PyVal) : Except PyError Library :=
  match v with
  | .book b => .ok (lib.add_book b)
  | _ => .error .typeError

/-- Source `Library.remove_book`: look the isbn up in the index first; on a hit
remove from the collection by isbn and from the indexes by book, returning
`True`; on a miss return `False` touching nothing.  (A `Book` object is
always truthy, so `if book:` tests exactly `is not None`.) -/
def remove_book (lib : Library) (isbn : String) : Bool × Library :=
  match lib.indexes.get_by_isbn isbn with
  | some book =>
      let r := BookCollection.remove lib.books isbn
      let ri := lib.indexes.remove_book book
      (true, { lib with books := r.2, indexes := ri.2 })
  | Option.none => (false, lib)

/-- Source `Library.search_by_isbn`: delegation to the index. -/
def search_by_isbn (lib : Library) (isbn : String) : Option Book :=
  lib.indexes.get_by_isbn isbn

/-- Source `Library.search_by_author`: delegation to the index. -/
def search_by_author (lib : Library) (author : String) : List Book :=
  lib.indexes.get_by_author author

/-- Source `Library.search_by_year`: delegation to the index. -/
def search_by_year (lib : Library) (year : Int) : List Book :=
  lib.indexes.get_by_year year

/-- Source `Library.search_by_genre`: linear scan over the collection, appending
each book whose genre matches to the result list. -/
def search_by_genre (lib : Library) (genre : String) : List Book :=
  lib.books.foldl (fun results b => if b.genre = genre then results ++ [b] else results) []

/-- Source `Library.get_all_books`. -/
def get_all_books (lib : Library) : BookCollection :=
  lib.books

end Library

/-- A Python `set` built by repeated `.add`, modelled as a duplicate-free
list in first-insertion order. -/
def setAdd {α : Type} [DecidableEq α] (s : List α) (a : α) : List α :=
  if a ∈ s then s else s ++ [a]

/-- Source `min` of a nonempty collection of ints. -/
def listMin (l : List Int) : Option Int :=
  match l with
  | [] => none
  | x :: xs => some (xs.foldl min x)

/-- Source `max` of a nonempty collection of ints. -/
def listMax (l : List Int) : Option Int :=
  match l with
  | [] => none
  | x :: xs => some (xs.foldl max x)

/-- Source `(min(years), max(years)) if years else None`. -/
def yearRangeOf (years : List Int) : Option (Int × Int) :=
  match listMin years, listMax years with
  | some lo, some hi => some (lo, hi)
  | _, _ => none

/-- The dict returned by `Library.get_statistics`. -/
structure Statistics where
  total_books : Nat
  unique_authors : Nat
  year_range : Option (Int × Int)
  genres : List String
deriving DecidableEq

namespace Library

/-- Source `Library.get_statistics`: one pass filling the three sets, then the
counts, the `(min, max)` pair (or `None` on empty), and the genre set. -/
def get_statistics (lib : Library) : Statistics :=
  let authors := lib.books.foldl (fun s b => setAdd s b.author) []
  let years := lib.books.foldl (fun s b => setAdd s b.year) []
  let genres := lib.books.foldl (fun s b => setAdd s b.genre) []
  { total_books := lib.books.length
    unique_authors := authors.length
    year_range := yearRangeOf years
    genres := genres }

end Library

/-- One `Catalog` mutation, for traces of operations. -/
inductive Op where
  | add : Book → Op
  | remove : String → Op
deriving DecidableEq

/-- Run one operation against a library. -/
def Library.applyOp (lib : Library) : Op → Library
  | .add b => lib.add_book b
  | .remove s => (lib.remove_book s).2

/-- Run a trace of operations. -/
def Library.runOps (lib : Library) (ops : List Op) : Library :=
  ops.foldl Library.applyOp lib

/-- Along a trace, every `add` presents an isbn that is fresh at the
moment it runs (removed isbns may be re-added). -/
def freshAdds : Library → List Op → Prop
  | _, [] => True
  | lib, Op.add b :: ops =>
      b.isbn ∉ lib.books.map Book.isbn ∧ freshAdds (lib.add_book b) ops
  | lib, Op.remove s :: ops => freshAdds ((lib.remove_book s).2) ops

/-- Coupling between the id-map and the sequence: the id-map is exactly
the sequence, keyed by isbn, in the same order. -/
def IsbnInv (lib : Library) : Prop :=
  lib.indexes.by_isbn = lib.books.map (fun b => (b.isbn, b))

/-- Sample book used by concrete witnesses. -/
def bookA : Book := ⟨"T1", "X", 2000, "Fiction", "A1"⟩

/-- Sample book used by concrete witnesses. -/
def bookB : Book := ⟨"T2", "X", 2001, "Drama", "A2"⟩

/-- Sample book sharing `bookA`'s isbn but differing elsewhere. -/
def bookA2 : Book := ⟨"T3", "Y", 2005, "Sci-Fi", "A1"⟩

/-- The two-book library of the spec's worked example. -/
def exLib : Library := ((Library.init "Main Library").add_book bookA).add_book bookB

theorem alGet_alSet_self {κ α : Type} [DecidableEq κ] (d : List (κ × α)) (k : κ) (v : α) :
    alGet (alSet d k v) k = some v := by
  induction d with
  | nil => simp [alSet, alGet]
  | cons p rest ih =>
      by_cases h : p.1 = k
      · simp [alSet, alGet, h]
      · simp [alSet, alGet, h, ih]

theorem genre_foldl (genre : String) (l : List Book) (acc : List Book) :
    l.foldl (fun results b => if b.genre = genre then results ++ [b] else results) acc
      = acc ++ l.filter (fun b => b.genre == genre) := by
  induction l generalizing acc with
  | nil => simp
  | cons b rest ih =>
      by_cases h : b.genre = genre
      · simp [List.foldl_cons, List.filter_cons, h, ih]
      · simp [List.foldl_cons, List.filter_cons, h, ih]

/-- Claim C2: adding two books with the same isbn makes `search_by_isbn` of
that isbn return the second book (last write wins in the unique id-map),
while `get_all_books` keeps both, appended in insertion order. -/
theorem c2_duplicate_id (lib : Library) (b1 b2 : Book) (h : b1.isbn = b2.isbn) :
    ((lib.add_book b1).add_book b2).search_by_isbn b1.isbn = some b2 ∧
      ((lib.add_book b1).add_book b2).get_all_books = lib.get_all_books ++ [b1, b2] := by
  constructor
  · simp only [Library.search_by_isbn, Library.add_book, IndexDict.get_by_isbn,
      IndexDict.add_book]
    rw [h]
    exact alGet_alSet_self _ _ _
  · simp [Library.add_book, Library.get_all_books]

theorem c2_witness :
    bookA.isbn = bookA2.isbn ∧
      ((((Library.init "L").add_book bookA).add_book bookA2).search_by_isbn bookA.isbn
          = some bookA2 ∧
        (((Library.init "L").add_book bookA).add_book bookA2).get_all_books
          = (Library.init "L").get_all_books ++ [bookA, bookA2]) :=
  ⟨rfl, c2_duplicate_id (Library.init "L") bookA bookA2 rfl⟩

/-- Claim C4: `Library.add_book` on a value that is not a `Book` stops with
`TypeError`, raised by the `isinstance` check before any mutation, so no
updated library is produced — sequence and all three maps are untouched. -/
theorem c4_add_non_book_fails (lib : Library) (v : PyVal) (h : v.isBook = false) :
    lib.add_val v = .error .typeError := by
  cases v with
  | book b => simp [PyVal.isBook] at h
  | str s => rfl
  | int n => rfl
  | none => rfl

theorem c4_witness :
    PyVal.isBook (PyVal.str "x") = false ∧
      (Library.init "L").add_val (PyVal.str "x") = .error .typeError :=
  ⟨rfl, c4_add_non_book_fails (Library.init "L") (PyVal.str "x") rfl⟩

/-- Claim C5: `Library.remove_book` of an isbn absent from the unique id-map
returns `False` and leaves the whole library — sequence, id-map, author
map and year map — exactly as it was. -/
theorem c5_remove_absent_id (lib : Library) (isbn : String)
    (h : lib.indexes.get_by_isbn isbn = none) :
    lib.remove_book isbn = (false, lib) := by
  simp [Library.remove_book, h]

theorem c5_witness :
    (Library.init "L").indexes.get_by_isbn "Z" = none ∧
      (Library.init "L").remove_book "Z" = (false, Library.init "L") :=
  ⟨rfl, c5_remove_absent_id (Library.init "L") "Z" rfl⟩

/-- Claim C6: `Library.search_by_genre` equals the filter of `get_all_books`
by genre equality, in insertion order, for every library state and every
genre — it never consults an index. -/
theorem c6_genre_is_filter (lib : Library) (genre : String) :
    lib.search_by_genre genre
      = (lib.get_all_books).filter (fun b => b.genre == genre) := by
  simpa using genre_foldl genre lib.books []

/-- Claim C9: `BookCollection.__contains__` on a value that is neither a `Book`
nor a string returns `False` rather than raising. -/
theorem c9_contains_other_false (books : BookCollection) (v : PyVal)
    (h1 : v.isBook = false) (h2 : v.isStr = false) :
    BookCollection.containsVal books v = false := by
  cases v with
  | book b => simp [PyVal.isBook] at h1
  | str s => simp [PyVal.isStr] at h2
  | int n => rfl
  | none => rfl

theorem c9_witness :
    PyVal.isBook (PyVal.int 5) = false ∧ PyVal.isStr (PyVal.int 5) = false ∧
      BookCollection.containsVal [bookA] (PyVal.int 5) = false :=
  ⟨rfl, rfl, c9_contains_other_false [bookA] (PyVal.int 5) rfl rfl⟩

/-- Claim C10: `BookCollection.remove_at_index` with a negative index returns
`None` and removes nothing: positional removal accepts only 0-based
indices in `[0, length)`. -/
theorem c10_remove_at_negative (books : BookCollection) (i : Int) (h : i < 0) :
    BookCollection.remove_at_index books i = (none, books) := by
  have hc : ¬ (0 ≤ i ∧ i < (books.length : Int)) := by omega
  simp [BookCollection.remove_at_index, hc]

theorem c10_witness :
    (-1 : Int) < 0 ∧
      BookCollection.remove_at_index [bookA] (-1) = (none, [bookA]) :=
  ⟨by decide, c10_remove_at_negative [bookA] (-1) (by decide)⟩

/-- Claim C8: integer indexing on the collection returns the book at the
(possibly negative) position when the index lies in `[-n, n)`, raises
`IndexError` outside that range, and slicing never fails: it clamps its
bounds and returns a contiguous sub-sequence in original order (a
beyond-the-end stop bound behaves like the default end). -/
theorem c8_getitem_slice (l : BookCollection) (i : Int) (s e : Option Int) (eo : Int) :
    ((-(l.length : Int) ≤ i ∧ i < (l.length : Int)) →
        ∃ b, BookCollection.getInt l i = .ok b ∧
          l[(if i < 0 then i + (l.length : Int) else i).toNat]? = some b) ∧
    ((i < -(l.length : Int) ∨ (l.length : Int) ≤ i) →
        BookCollection.getInt l i = .error .indexError) ∧
    (∃ k m, BookCollection.getSlice l s e = (l.drop k).take m) ∧
    ((l.length : Int) ≤ eo →
        BookCollection.getSlice l s (some eo) = BookCollection.getSlice l s Option.none) := by
  refine ⟨?_, ?_, ?_, ?_⟩
  · intro h
    have h0 : 0 ≤ (if i < 0 then i + (l.length : Int) else i) ∧
        (if i < 0 then i + (l.length : Int) else i) < (l.length : Int) := by
      split <;> omega
    have hlt : (if i < 0 then i + (l.length : Int) else i).toNat < l.length := by omega
    refine ⟨l[(if i < 0 then i + (l.length : Int) else i).toNat], ?_,
      List.getElem?_eq_getElem hlt⟩
    simp only [BookCollection.getInt]
    rw [if_pos h0, List.getElem?_eq_getElem hlt]
  · intro h
    rcases h with h | h <;>
      · have hc : ¬ (0 ≤ (if i < 0 then i + (l.length : Int) else i) ∧
            (if i < 0 then i + (l.length : Int) else i) < (l.length : Int)) := by
          split <;> omega
        simp only [BookCollection.getInt]
        rw [if_neg hc]
  · exact ⟨_, _, List.drop_take ..⟩
  · intro h
    have h1 : ¬ (eo < 0) := by omega
    have hclamp : BookCollection.sliceClamp l.length eo = l.length := by
      simp only [BookCollection.sliceClamp, if_neg h1]
      exact Nat.min_eq_right (by omega)
    simp only [BookCollection.getSlice, hclamp]

theorem c8_witness :
    (BookCollection.getInt [bookA, bookB] (-1) = Except.ok bookB ∧
      BookCollection.getInt [bookA, bookB] 5 = Except.error PyError.indexError) ∧
      BookCollection.getSlice [bookA, bookB] (some (-5)) (some 99) = [bookA, bookB] := by
  constructor
  · constructor
    · obtain ⟨b, hb, hb2⟩ :=
        (c8_getitem_slice [bookA, bookB] (-1) (some (-5)) (some 99) 99).1 (by decide)
      have hbv : some b = some bookB := by rw [← hb2]; decide
      rw [hb, Option.some_inj.mp hbv]
    · exact (c8_getitem_slice [bookA, bookB] 5 (some (-5)) (some 99) 99).2.1 (by decide)
  · decide

theorem foldl_setAdd_map {α β : Type} [DecidableEq β] (f : α → β) (l : List α) (s : List β) :
    l.foldl (fun acc x => setAdd acc (f x)) s = (l.map f).foldl setAdd s := by
  induction l generalizing s with
  | nil => rfl
  | cons x xs ih => simp only [List.foldl_cons, List.map_cons, ih]

theorem setFold_mem {α : Type} [DecidableEq α] (l : List α) (s : List α) (a : α) :
    a ∈ l.foldl setAdd s ↔ a ∈ s ∨ a ∈ l := by
  induction l generalizing s with
  | nil => simp
  | cons x xs ih =>
      rw [List.foldl_cons, ih]
      by_cases hx : x ∈ s
      · simp only [setAdd, if_pos hx, List.mem_cons]
        constructor
        · rintro (h | h)
          · exact Or.inl h
          · exact Or.inr (Or.inr h)
        · rintro (h | rfl | h)
          · exact Or.inl h
          · exact Or.inl hx
          · exact Or.inr h
      · simp only [setAdd, if_neg hx, List.mem_append, List.mem_singleton, List.mem_cons]
        tauto

theorem setFold_nodup {α : Type} [DecidableEq α] (l : List α) (s : List α) (h : s.Nodup) :
    (l.foldl setAdd s).Nodup := by
  induction l generalizing s with
  | nil => simpa using h
  | cons x xs ih =>
      rw [List.foldl_cons]
      apply ih
      by_cases hx : x ∈ s
      · simpa [setAdd, hx] using h
      · simp [setAdd, hx, List.nodup_append, h]

theorem setFold_nil_iff {α : Type} [DecidableEq α] (l : List α) :
    l.foldl setAdd [] = [] ↔ l = [] := by
  constructor
  · intro h
    rw [List.eq_nil_iff_forall_not_mem]
    intro a ha
    have hmem : a ∈ l.foldl setAdd [] := (setFold_mem l [] a).mpr (Or.inr ha)
    rw [h] at hmem
    exact absurd hmem (List.not_mem_nil a)
  · rintro rfl
    rfl

theorem setFold_length_eq_card {α : Type} [DecidableEq α] (l : List α) :
    (l.foldl setAdd []).length = l.toFinset.card := by
  have hnd : (l.foldl setAdd []).Nodup := setFold_nodup l [] List.nodup_nil
  have hfs : (l.foldl setAdd []).toFinset = l.toFinset := by
    ext a
    simp [List.mem_toFinset, setFold_mem]
  rw [← List.toFinset_card_of_nodup hnd, hfs]

theorem foldl_min_le (xs : List Int) (x : Int) :
    xs.foldl min x ≤ x ∧ ∀ y ∈ xs, xs.foldl min x ≤ y := by
  induction xs generalizing x with
  | nil => simp
  | cons z zs ih =>
      rw [List.foldl_cons]
      obtain ⟨h1, h2⟩ := ih (min x z)
      refine ⟨le_trans h1 (min_le_left x z), ?_⟩
      intro y hy
      rcases List.mem_cons.mp hy with rfl | hy
      · exact le_trans h1 (min_le_right x y)
      · exact h2 y hy

theorem foldl_min_mem (xs : List Int) (x : Int) :
    xs.foldl min x = x ∨ xs.foldl min x ∈ xs := by
  induction xs generalizing x with
  | nil => simp
  | cons z zs ih =>
      rw [List.foldl_cons]
      rcases ih (min x z) with h | h
      · rcases min_choice x z with h2 | h2
        · left
          rw [h, h2]
        · right
          rw [h, h2]
          exact List.mem_cons_self z zs
      · right
        exact List.mem_cons_of_mem z h

theorem foldl_max_ge (xs : List Int) (x : Int) :
    x ≤ xs.foldl max x ∧ ∀ y ∈ xs, y ≤ xs.foldl max x := by
  induction xs generalizing x with
  | nil => simp
  | cons z zs ih =>
      rw [List.foldl_cons]
      obtain ⟨h1, h2⟩ := ih (max x z)
      refine ⟨le_trans (le_max_left x z) h1, ?_⟩
      intro y hy
      rcases List.mem_cons.mp hy with rfl | hy
      · exact le_trans (le_max_right x y) h1
      · exact h2 y hy

theorem foldl_max_mem (xs : List Int) (x : Int) :
    xs.foldl max x = x ∨ xs.foldl max x ∈ xs := by
  induction xs generalizing x with
  | nil => simp
  | cons z zs ih =>
      rw [List.foldl_cons]
      rcases ih (max x z) with h | h
      · rcases max_choice x z with h2 | h2
        · left
          rw [h, h2]
        · right
          rw [h, h2]
          exact List.mem_cons_self z zs
      · right
        exact List.mem_cons_of_mem z h

theorem listMin_spec (l : List Int) (m : Int) (h : listMin l = some m) :
    m ∈ l ∧ ∀ y ∈ l, m ≤ y := by
  match l with
  | [] => simp [listMin] at h
  | x :: xs =>
      simp only [listMin, Option.some_inj] at h
      subst h
      constructor
      · rcases foldl_min_mem xs x with h | h
        · rw [h]
          exact List.mem_cons_self x xs
        · exact List.mem_cons_of_mem x h
      · intro y hy
        rcases List.mem_cons.mp hy with rfl | hy
        · exact (foldl_min_le xs y).1
        · exact (foldl_min_le xs x).2 y hy

theorem listMax_spec (l : List Int) (m : Int) (h : listMax l = some m) :
    m ∈ l ∧ ∀ y ∈ l, y ≤ m := by
  match l with
  | [] => simp [listMax] at h
  | x :: xs =>
      simp only [listMax, Option.some_inj] at h
      subst h
      constructor
      · rcases foldl_max_mem xs x with h | h
        · rw [h]
          exact List.mem_cons_self x xs
        · exact List.mem_cons_of_mem x h
      · intro y hy
        rcases List.mem_cons.mp hy with rfl | hy
        · exact (foldl_max_ge xs y).1
        · exact (foldl_max_ge xs x).2 y hy

theorem yearRangeOf_eq_none_iff (L : List Int) : yearRangeOf L = none ↔ L = [] := by
  cases L with
  | nil => simp [yearRangeOf, listMin, listMax]
  | cons x xs => simp [yearRangeOf, listMin, listMax]

theorem yearRangeOf_eq_some (L : List Int) (lo hi : Int)
    (h : yearRangeOf L = some (lo, hi)) :
    listMin L = some lo ∧ listMax L = some hi := by
  cases L with
  | nil => simp [yearRangeOf, listMin, listMax] at h
  | cons x xs =>
      simp only [yearRangeOf, listMin, listMax, Option.some.injEq, Prod.mk.injEq] at h
      simp only [listMin, listMax, Option.some.injEq]
      exact h

theorem get_statistics_eq (lib : Library) :
    lib.get_statistics =
      { total_books := lib.books.length
        unique_authors := ((lib.books.map Book.author).foldl setAdd []).length
        year_range := yearRangeOf ((lib.books.map Book.year).foldl setAdd [])
        genres := (lib.books.map Book.genre).foldl setAdd [] } := by
  simp only [Library.get_statistics, foldl_setAdd_map]

/-- Claim C7: `get_statistics` reports the length of the sequence, the number
of distinct authors, a year range equal to `None` exactly on the empty
library and otherwise to the attained minimum and maximum years, and the
set of distinct genre values. -/
theorem c7_statistics (lib : Library) :
    (lib.get_statistics).total_books = lib.books.length ∧
    (lib.get_statistics).unique_authors = (lib.books.map Book.author).toFinset.card ∧
    ((lib.get_statistics).year_range = none ↔ lib.books = []) ∧
    (∀ lo hi, (lib.get_statistics).year_range = some (lo, hi) →
        (∀ b ∈ lib.books, lo ≤ b.year ∧ b.year ≤ hi) ∧
        (∃ b ∈ lib.books, b.year = lo) ∧ (∃ b ∈ lib.books, b.year = hi)) ∧
    (∀ g, g ∈ (lib.get_statistics).genres ↔ ∃ b ∈ lib.books, b.genre = g) ∧
    (lib.get_statistics).genres.Nodup := by
  rw [get_statistics_eq]
  refine ⟨rfl, setFold_length_eq_card _, ?_, ?_, ?_, setFold_nodup _ _ List.nodup_nil⟩
  · rw [yearRangeOf_eq_none_iff, setFold_nil_iff, List.map_eq_nil_iff]
  · intro lo hi h
    obtain ⟨hmin, hmax⟩ := yearRangeOf_eq_some _ lo hi h
    obtain ⟨hminmem, hminle⟩ := listMin_spec _ lo hmin
    obtain ⟨hmaxmem, hmaxge⟩ := listMax_spec _ hi hmax
    refine ⟨?_, ?_, ?_⟩
    · intro b hb
      have hby : b.year ∈ (lib.books.map Book.year).foldl setAdd [] :=
        (setFold_mem _ _ _).mpr (Or.inr (List.mem_map_of_mem Book.year hb))
      exact ⟨hminle _ hby, hmaxge _ hby⟩
    · have hmem : lo ∈ lib.books.map Book.year := by
        rcases (setFold_mem _ _ _).mp hminmem with h0 | h0
        · exact absurd h0 (List.not_mem_nil lo)
        · exact h0
      obtain ⟨b, hb, hby⟩ := List.mem_map.mp hmem
      exact ⟨b, hb, hby⟩
    · have hmem : hi ∈ lib.books.map Book.year := by
        rcases (setFold_mem _ _ _).mp hmaxmem with h0 | h0
        · exact absurd h0 (List.not_mem_nil hi)
        · exact h0
      obtain ⟨b, hb, hby⟩ := List.mem_map.mp hmem
      exact ⟨b, hb, hby⟩
  · intro g
    rw [setFold_mem]
    simp only [List.not_mem_nil, false_or, List.mem_map]

theorem c7_witness :
    (∀ b ∈ exLib.books, 2000 ≤ b.year ∧ b.year ≤ 2001) ∧
      (∃ b ∈ exLib.books, b.year = 2000) ∧ (∃ b ∈ exLib.books, b.year = 2001) :=
  (c7_statistics exLib).2.2.2.1 2000 2001 (by decide)

theorem alGet_eq_none_iff {κ α : Type} [DecidableEq κ] (d : List (κ × α)) (k : κ) :
    alGet d k = none ↔ ∀ p ∈ d, p.1 ≠ k := by
  induction d with
  | nil => simp [alGet]
  | cons p rest ih =>
      by_cases hp : p.1 = k
      · simp [alGet, hp]
      · simp [alGet, hp, ih]

theorem alSet_append_of_noKey {κ α : Type} [DecidableEq κ] (d : List (κ × α)) (k : κ) (v : α)
    (h : ∀ p ∈ d, p.1 ≠ k) : alSet d k v = d ++ [(k, v)] := by
  induction d with
  | nil => rfl
  | cons p rest ih =>
      simp only [alSet, if_neg (h p (List.mem_cons_self p rest)), List.cons_append]
      rw [ih (fun q hq => h q (List.mem_cons_of_mem p hq))]

theorem alDel_alSet_of_noKey {κ α : Type} [DecidableEq κ] (d : List (κ × α)) (k : κ) (v : α)
    (h : ∀ p ∈ d, p.1 ≠ k) : alDel (alSet d k v) k = d := by
  induction d with
  | nil => simp [alSet, alDel]
  | cons p rest ih =>
      have hp : p.1 ≠ k := h p (List.mem_cons_self p rest)
      simp only [alSet, if_neg hp, alDel]
      rw [ih (fun q hq => h q (List.mem_cons_of_mem p hq))]

theorem alGet_alSet_ne {κ α : Type} [DecidableEq κ] (d : List (κ × α)) (k s : κ) (v : α)
    (h : k ≠ s) : alGet (alSet d k v) s = alGet d s := by
  induction d with
  | nil => simp [alSet, alGet, h]
  | cons p rest ih =>
      by_cases hp : p.1 = k
      · simp [alSet, alGet, hp, h]
      · simp only [alSet, if_neg hp, alGet, ih]

theorem alDel_alSet_comm {κ α : Type} [DecidableEq κ] (d : List (κ × α)) (k s : κ) (v : α)
    (h : k ≠ s) : alDel (alSet d k v) s = alSet (alDel d s) k v := by
  induction d with
  | nil => simp [alSet, alDel, h]
  | cons p rest ih =>
      by_cases hpk : p.1 = k
      · have hps : p.1 ≠ s := by rw [hpk]; exact h
        simp [alSet, alDel, hpk, hps, h]
      · by_cases hps : p.1 = s
        · simp [alSet, alDel, hpk, hps, Ne.symm h]
        · simp [alSet, alDel, hpk, hps, ih]

theorem alGet_map_pair (books : List Book) (s : String) (b : Book)
    (h : alGet (books.map (fun x => (x.isbn, x))) s = some b) : b.isbn = s := by
  induction books with
  | nil => simp [alGet] at h
  | cons x rest ih =>
      simp only [List.map_cons, alGet] at h
      by_cases hx : x.isbn = s
      · rw [if_pos hx] at h
        cases h
        exact hx
      · rw [if_neg hx] at h
        exact ih h

theorem alDel_map_pair (books : List Book) (s : String) :
    alDel (books.map (fun x => (x.isbn, x))) s
      = (BookCollection.remove books s).2.map (fun x => (x.isbn, x)) := by
  induction books with
  | nil => rfl
  | cons x rest ih =>
      simp only [List.map_cons, alDel, BookCollection.remove]
      by_cases hx : x.isbn = s
      · rw [if_pos hx, if_pos hx]
      · rw [if_neg hx, if_neg hx]
        simp [ih]

theorem isbnInv_init (name : String) : IsbnInv (Library.init name) := rfl

theorem isbnInv_add (lib : Library) (b : Book) (hInv : IsbnInv lib)
    (hfresh : b.isbn ∉ lib.books.map Book.isbn) : IsbnInv (lib.add_book b) := by
  unfold IsbnInv at hInv ⊢
  simp only [Library.add_book, IndexDict.add_book]
  rw [hInv, alSet_append_of_noKey]
  · simp
  · intro p hp
    obtain ⟨x, hx, rfl⟩ := List.mem_map.mp hp
    intro hcontra
    exact hfresh (hcontra ▸ List.mem_map_of_mem Book.isbn hx)

theorem isbnInv_remove (lib : Library) (s : String) (hInv : IsbnInv lib) :
    IsbnInv ((lib.remove_book s).2) := by
  unfold IsbnInv at hInv ⊢
  cases hget : lib.indexes.get_by_isbn s with
  | none => simp [Library.remove_book, hget, hInv]
  | some book =>
      have hbook : book.isbn = s := by
        apply alGet_map_pair lib.books s book
        rw [← hInv]
        exact hget
      have hcont : alContains lib.indexes.by_isbn book.isbn = true := by
        unfold alContains
        rw [hbook]
        unfold IndexDict.get_by_isbn at hget
        rw [hget]
        rfl
      simp only [Library.remove_book, hget, IndexDict.remove_book, hcont, if_true]
      rw [hbook, hInv, alDel_map_pair]

theorem isbnInv_runOps (ops : List Op) (lib : Library) (hInv : IsbnInv lib)
    (hfresh : freshAdds lib ops) : IsbnInv (lib.runOps ops) := by
  induction ops generalizing lib with
  | nil => simpa [Library.runOps] using hInv
  | cons op rest ih =>
      cases op with
      | add b =>
          simp only [freshAdds] at hfresh
          simp only [Library.runOps, List.foldl_cons, Library.applyOp]
          exact ih (lib.add_book b) (isbnInv_add lib b hInv hfresh.1) hfresh.2
      | remove s =>
          simp only [freshAdds] at hfresh
          simp only [Library.runOps, List.foldl_cons, Library.applyOp]
          exact ih _ (isbnInv_remove lib s hInv) hfresh

theorem freshAdds_append (lib : Library) (pre suf : List Op)
    (h : freshAdds lib (pre ++ suf)) : freshAdds lib pre := by
  induction pre generalizing lib with
  | nil => trivial
  | cons op rest ih =>
      cases op with
      | add b =>
          rw [List.cons_append] at h
          simp only [freshAdds] at h ⊢
          exact ⟨h.1, ih _ h.2⟩
      | remove s =>
          rw [List.cons_append] at h
          simp only [freshAdds] at h ⊢
          exact ih _ h

/-- Claim C1 counterexample: from the empty library, adding `bookA` and then
`bookA2` (same isbn) is a sequence of catalog operations after which the
sequence holds two books while the unique id-map holds one entry — the
claimed size equality fails. -/
theorem c1_counterexample :
    ¬ ((((Library.init "L").add_book bookA).add_book bookA2).books.length
        = IndexDict.len (((Library.init "L").add_book bookA).add_book bookA2).indexes) := by
  decide

/-- Claim C1 (amended): for every sequence of operations from the empty library
in which each `add_book` presents an isbn not currently in the sequence,
the length of `get_all` equals the size of the unique id-map after every
operation (i.e. after every prefix of the trace). -/
theorem c1_sizes_agree (name : String) (ops pre suf : List Op)
    (hsplit : ops = pre ++ suf)
    (hfresh : freshAdds (Library.init name) ops) :
    ((Library.init name).runOps pre).books.length
      = IndexDict.len ((Library.init name).runOps pre).indexes := by
  subst hsplit
  have hpre := freshAdds_append _ pre suf hfresh
  have hInv : IsbnInv ((Library.init name).runOps pre) :=
    isbnInv_runOps pre _ (isbnInv_init name) hpre
  unfold IsbnInv at hInv
  unfold IndexDict.len
  rw [hInv, List.length_map]

theorem c1_witness :
    ((Library.init "L").runOps [Op.add bookA]).books.length
      = IndexDict.len ((Library.init "L").runOps [Op.add bookA]).indexes :=
  c1_sizes_agree "L" ([Op.add bookA] ++ [Op.add bookB]) [Op.add bookA] [Op.add bookB] rfl
    (by
      simp only [List.singleton_append, freshAdds]
      exact ⟨by decide, by decide, trivial⟩)

theorem foldl_add_books (mids : List Book) (L : Library) :
    (mids.foldl Library.add_book L).books = L.books ++ mids := by
  induction mids generalizing L with
  | nil => simp [List.foldl_nil]
  | cons b rest ih => simp [List.foldl_cons, ih, Library.add_book]

theorem foldl_add_isbn_props (mids : List Book) (s : String) (r : Book) :
    ∀ L : Library, (∀ b ∈ mids, b.isbn ≠ s) →
      alGet L.indexes.by_isbn s = some r →
      alGet (alDel L.indexes.by_isbn s) s = none →
      alGet (mids.foldl Library.add_book L).indexes.by_isbn s = some r ∧
        alGet (alDel (mids.foldl Library.add_book L).indexes.by_isbn s) s = none := by
  induction mids with
  | nil =>
      intro L _ h1 h2
      exact ⟨h1, h2⟩
  | cons b rest ih =>
      intro L hm h1 h2
      have hb : b.isbn ≠ s := hm b (List.mem_cons_self b rest)
      rw [List.foldl_cons]
      apply ih (L.add_book b) (fun x hx => hm x (List.mem_cons_of_mem b hx))
      · simp only [Library.add_book, IndexDict.add_book]
        rw [alGet_alSet_ne _ _ _ _ hb]
        exact h1
      · simp only [Library.add_book, IndexDict.add_book]
        rw [alDel_alSet_comm _ _ _ _ hb, alGet_alSet_ne _ _ _ _ hb]
        exact h2

theorem remove_middle (u v : List Book) (r : Book) (s : String)
    (hu : ∀ b ∈ u, b.isbn ≠ s) (hr : r.isbn = s) :
    BookCollection.remove (u ++ r :: v) s = (true, u ++ v) := by
  induction u with
  | nil => simp [BookCollection.remove, hr]
  | cons x xs ih =>
      have hx : x.isbn ≠ s := hu x (List.mem_cons_self x xs)
      simp only [List.cons_append, BookCollection.remove, if_neg hx, List.append_eq]
      rw [ih (fun b hb => hu b (List.mem_cons_of_mem x hb))]

/-- Claim C3 counterexample: add `bookA`, then (as an intervening add) `bookA2`
with the same isbn, then remove that isbn: `search_by_isbn` does return
`None`, but `get_all` still holds a book with the removed id, so the
claim's conjunction fails. -/
theorem c3_counterexample :
    ¬ (((((Library.init "L").add_book bookA).add_book bookA2).remove_book
          bookA.isbn).2.search_by_isbn bookA.isbn = none ∧
        ∀ b ∈ ((((Library.init "L").add_book bookA).add_book bookA2).remove_book
          bookA.isbn).2.books, b.isbn ≠ bookA.isbn) := by
  decide

/-- Claim C3 (amended): if neither the sequence nor the id-map of the library
holds an entry with `r`'s isbn, then after adding `r`, adding any books
whose isbns all differ from `r`'s, and removing `r.isbn`, the search for
`r.isbn` returns `None` and no book with that isbn is in the sequence. -/
theorem c3_add_then_remove (lib : Library) (r : Book) (mids : List Book)
    (hbooks : ∀ b ∈ lib.books, b.isbn ≠ r.isbn)
    (hidx : alGet lib.indexes.by_isbn r.isbn = none)
    (hmids : ∀ b ∈ mids, b.isbn ≠ r.isbn) :
    ((mids.foldl Library.add_book (lib.add_book r)).remove_book r.isbn).2.search_by_isbn
        r.isbn = none ∧
      ∀ b ∈ ((mids.foldl Library.add_book (lib.add_book r)).remove_book r.isbn).2.books,
        b.isbn ≠ r.isbn := by
  have hNoKey : ∀ p ∈ lib.indexes.by_isbn, p.1 ≠ r.isbn := (alGet_eq_none_iff _ _).mp hidx
  have h1 : alGet (lib.add_book r).indexes.by_isbn r.isbn = some r := by
    simp only [Library.add_book, IndexDict.add_book]
    exact alGet_alSet_self _ _ _
  have h2 : alGet (alDel (lib.add_book r).indexes.by_isbn r.isbn) r.isbn = none := by
    simp only [Library.add_book, IndexDict.add_book]
    rw [alDel_alSet_of_noKey _ _ _ hNoKey]
    exact hidx
  obtain ⟨hM1, hM2⟩ :=
    foldl_add_isbn_props mids r.isbn r (lib.add_book r) hmids h1 h2
  have hMget : (mids.foldl Library.add_book (lib.add_book r)).indexes.get_by_isbn r.isbn
      = some r := hM1
  have hcont : alContains (mids.foldl Library.add_book (lib.add_book r)).indexes.by_isbn
      r.isbn = true := by
    unfold alContains
    rw [hM1]
    rfl
  have hMbooks : (mids.foldl Library.add_book (lib.add_book r)).books
      = lib.books ++ r :: mids := by
    rw [foldl_add_books]
    simp [Library.add_book]
  constructor
  · simp only [Library.remove_book, hMget, hM1, Library.search_by_isbn,
      IndexDict.get_by_isbn, IndexDict.remove_book, hcont, if_true]
    exact hM2
  · simp only [Library.remove_book, hMget]
    rw [hMbooks, remove_middle lib.books mids r r.isbn hbooks rfl]
    intro b hb
    rcases List.mem_append.mp hb with h | h
    · exact hbooks b h
    · exact hmids b h

theorem c3_witness :
    ((([bookB].foldl Library.add_book ((Library.init "L").add_book bookA)).remove_book
        bookA.isbn).2.search_by_isbn bookA.isbn = none) ∧
      ∀ b ∈ (([bookB].foldl Library.add_book ((Library.init "L").add_book bookA)).remove_book
        bookA.isbn).2.books, b.isbn ≠ bookA.isbn :=
  c3_add_then_remove (Library.init "L") bookA [bookB] (by decide) (by decide) (by decide)
